import Mathlib

/-!
Verification of the normalization-and-join layer of the Pacific PFM Regional
Coordination Dashboard (`app.py`).

The embedding models spreadsheet cells as optional strings (the row source
delivers JSON objects with string values; an absent key yields Python `None`),
strings as `List Char`, and Python floats as rationals.  Character-level case
mapping and whitespace are modelled on the ASCII fragment of CPython's
`str.upper` / `str.lower` / `str.strip`, and `float(...)` parsing on the
plain-decimal fragment of CPython's float grammar; every concrete input used
in a theorem below lies inside these fragments, where the model and CPython
agree exactly.
-/

set_option linter.unusedVariables false

abbrev Str := List Char

/-- A Python cell value as delivered by the row source: `None` or a string. -/
inductive PyVal where
  | none
  | str (s : Str)
deriving DecidableEq

/-- Python `str(v)`; note `str(None) = "None"`. -/
def PyVal.toStr : PyVal → Str
  | .none => String.toList "None"
  | .str s => s

/-- Python truthiness of a cell: `None` and `""` are falsy. -/
def PyVal.truthy : PyVal → Bool
  | .none => false
  | .str s => !s.isEmpty

/-- Python `v or ""` coerced to a string (the falsy values `None` and `""`
both yield `""`). -/
def PyVal.orEmpty : PyVal → Str
  | .none => []
  | .str s => s

/-- ASCII lowercase/uppercase letter pairs: the fragment of CPython's case
mapping used by this model. -/
def asciiCasePairs : List (Char × Char) :=
  [('a', 'A'), ('b', 'B'), ('c', 'C'), ('d', 'D'), ('e', 'E'), ('f', 'F'),
   ('g', 'G'), ('h', 'H'), ('i', 'I'), ('j', 'J'), ('k', 'K'), ('l', 'L'),
   ('m', 'M'), ('n', 'N'), ('o', 'O'), ('p', 'P'), ('q', 'Q'), ('r', 'R'),
   ('s', 'S'), ('t', 'T'), ('u', 'U'), ('v', 'V'), ('w', 'W'), ('x', 'X'),
   ('y', 'Y'), ('z', 'Z')]

/-- `str.upper` on one character (ASCII fragment). -/
def upChar (c : Char) : Char :=
  ((asciiCasePairs.find? (fun p => p.1 == c)).map Prod.snd).getD c

/-- `str.lower` on one character (ASCII fragment). -/
def lowChar (c : Char) : Char :=
  ((asciiCasePairs.find? (fun p => p.2 == c)).map Prod.fst).getD c

/-- The non-breaking space character removed by `norm_code`. -/
def nbspChar : Char := ' '

/-- Whitespace stripped by Python `str.strip` (ASCII fragment). -/
def isWs (c : Char) : Bool :=
  c == ' ' || c == '\t' || c == '\n' || c == '\r' || c == '\x0b' || c == '\x0c'

/-- `.replace(" ", "")`. -/
def removeNbsp (s : Str) : Str := s.filter (fun c => c != nbspChar)

/-- `.strip()`: drop leading and trailing whitespace. -/
def stripStr (s : Str) : Str :=
  ((s.dropWhile isWs).reverse.dropWhile isWs).reverse

/-- `.upper()`. -/
def upperStr (s : Str) : Str := s.map upChar

/-- `.lower()`. -/
def lowerStr (s : Str) : Str := s.map lowChar

/-- `norm_code` from app.py:
`str(v or "").replace(" ", "").strip().upper()`. -/
def norm_code (v : PyVal) : Str := upperStr (stripStr (removeNbsp v.orEmpty))

/-- Numeric value of a digit string, most significant digit first. -/
def digitsVal (ds : Str) : Nat :=
  ds.foldl (fun acc c => acc * 10 + (c.toNat - 48)) 0

/-- Python `float(s)` on the plain-decimal fragment of the float grammar:
an optional sign, then digits with at most one decimal point and at least
one digit.  Any other input (including `"None"`, empty string and
free text) fails to parse, exactly as CPython raises `ValueError`. -/
def parseFloat? (s : Str) : Option ℚ :=
  let core := fun (t : Str) (neg : Bool) =>
    let ip := t.takeWhile Char.isDigit
    let rest := t.dropWhile Char.isDigit
    let mk := fun (fp : Str) =>
      let m : Nat := digitsVal ip * 10 ^ fp.length + digitsVal fp
      some (mkRat (if neg then -(m : Int) else (m : Int)) (10 ^ fp.length))
    match rest with
    | [] => if ip.isEmpty then Option.none else mk []
    | '.' :: fp =>
        if fp.all Char.isDigit && !(ip.isEmpty && fp.isEmpty) then mk fp
        else Option.none
    | _ => Option.none
  match s with
  | '-' :: t => core t true
  | '+' :: t => core t false
  | t => core t false

/-- The threshold cascade of `score_band` applied to an already-parsed
numeric score.  When Python's `score_band` receives a float `f`, the
round trip `float(str(f).strip())` returns `f` itself, so call sites that
band a float are embedded via `band_of` directly. -/
def band_of (s : ℚ) : String :=
  if s ≥ 85 then "Very Strong"
  else if s ≥ 70 then "Strong"
  else if s ≥ 55 then "Moderate"
  else "Weak"

/-- `score_band` from app.py: `float(str(score).strip())`, "N/A" when the
parse raises, otherwise the threshold cascade. -/
def score_band (score : PyVal) : String :=
  match parseFloat? (stripStr score.toStr) with
  | Option.none => "N/A"
  | some s => band_of s

/-- `safe_float` from app.py: parse as `score_band` does, defaulting to 0.0. -/
def safe_float (v : PyVal) : ℚ := (parseFloat? (stripStr v.toStr)).getD 0

/-- A spreadsheet row: an ordered string-keyed record. -/
abbrev Row := List (Str × PyVal)

/-- Python `row.get(k)`: value of the first binding of `k`, `None` if absent. -/
def Row.get (row : Row) (k : Str) : PyVal :=
  match row.find? (fun kv => kv.1 == k) with
  | some kv => kv.2
  | Option.none => PyVal.none

/-- The key test of `extract_code`: `"code" in str(k).lower()`
(substring containment). -/
def hasCodeKey (k : Str) : Bool := decide (String.toList "code" <:+: lowerStr k)

/-- `extract_code` from app.py: scan the row's key-value pairs in order and
return the normalized value of the first key containing "code"
(case-insensitively); `""` when no key matches. -/
def extract_code : Row → Str
  | [] => []
  | (k, v) :: rest => if hasCodeKey k then norm_code v else extract_code rest

def kCountry : Str := String.toList "Country"

def kCode : Str := String.toList "Code"

def kOverall : Str := String.toList "Overall Score"

/-- `DIM_COLUMNS` from app.py. -/
def DIM_COLUMNS : List Str :=
  [String.toList "Dim 1: PFM Assessments",
   String.toList "Dim 2: Climate Risk",
   String.toList "Dim 3: Fiscal Risk Mgmt",
   String.toList "Dim 4: Finance Mobilisation",
   String.toList "Dim 5: Capabilities"]

/-- Round-half-to-even to an integer: the rounding of Python `round`. -/
def roundHalfEven (q : ℚ) : ℤ :=
  let f := ⌊q⌋
  let r := q - f
  if r < 1 / 2 then f
  else if 1 / 2 < r then f + 1
  else if f % 2 = 0 then f else f + 1

/-- Python `round(x, 1)` on the rational model. -/
def roundTo1 (q : ℚ) : ℚ := (roundHalfEven (q * 10) : ℚ) / 10

/-- The values contributing to one dimension average (app.py lines 128-133):
`safe_float` of the cell, kept when `val >= 0`; an unparseable or absent cell
becomes `0.0` and is therefore kept, while a negative value is dropped.
`dim_sums[dim]` is the sum of this list and `dim_counts[dim]` its length. -/
def dim_contribs (profiles : List Row) (dim : Str) : List ℚ :=
  (profiles.map (fun r => safe_float (r.get dim))).filter (fun v => 0 ≤ v)

/-- One entry of `dimension_avgs` (app.py lines 135-138):
`round(dim_sums[dim] / dim_counts[dim], 1) if dim_counts[dim] else 0`. -/
def dimension_avg (profiles : List Row) (dim : Str) : ℚ :=
  let l := dim_contribs profiles dim
  if l.length ≠ 0 then roundTo1 (l.sum / l.length) else 0

/-- Modelled from the spec (§4.4): the dimension average under the *exclude*
policy — non-numeric/absent cells excluded from numerator and denominator, and
a dimension with zero contributing values yielding no value (`none`), never
zero.  Declared only to be compared with `dimension_avg` above. -/
def dimension_avg_spec (profiles : List Row) (dim : Str) : Option ℚ :=
  let l := (profiles.map (fun r => parseFloat? (stripStr (r.get dim).toStr))).reduceOption
  if l.length ≠ 0 then some (roundTo1 (l.sum / l.length)) else Option.none

/-- The score-band histogram (app.py lines 119-122): how many profiles fall in
band `b`, the cell being banded raw (not through `safe_float`). -/
def band_counts (profiles : List Row) (b : String) : Nat :=
  (profiles.filter (fun c => score_band (c.get kOverall) == b)).length

/-- One entry of the overview's country ranking. -/
structure CountryScore where
  name : Str
  score : ℚ
  band : String
  code : Str
deriving DecidableEq

/-- One candidate entry of `country_scores` (app.py lines 142-153), kept only
when both name and code are truthy (non-empty).  `score_band(score)` is called
on the float `score`, whose string form reparses to itself, so it is
`band_of score`. -/
def countryScore? (c : Row) : Option CountryScore :=
  let name := (c.get kCountry).orEmpty
  let code := norm_code (c.get kCode)
  let score := safe_float (c.get kOverall)
  if !name.isEmpty && !code.isEmpty then
    some { name := name, score := score, band := band_of score, code := code }
  else Option.none

/-- `country_scores` before the sort, in source row order. -/
def country_scores_raw (profiles : List Row) : List CountryScore :=
  profiles.filterMap countryScore?

/-- The descending-by-score order used by the stable Python sort
`sort(key=lambda x: x["score"], reverse=True)` (app.py line 154). -/
def scoreGe (a b : CountryScore) : Prop := b.score ≤ a.score

instance : DecidableRel scoreGe :=
  fun a b => inferInstanceAs (Decidable (b.score ≤ a.score))

instance : IsTotal CountryScore scoreGe := ⟨fun a b => le_total b.score a.score⟩

instance : IsTrans CountryScore scoreGe := ⟨fun _ _ _ h1 h2 => le_trans h2 h1⟩

/-- `country_scores` (app.py line 154): stable sort, score descending. -/
def country_scores (profiles : List Row) : List CountryScore :=
  List.insertionSort scoreGe (country_scores_raw profiles)

/-- One entry of a technical-area ranking. -/
structure TAEntry where
  name : Str
  score : ℚ
  code : Str
deriving DecidableEq

/-- One candidate entry of a technical-area ranking (app.py lines 160-169),
kept only when both name and code are truthy (non-empty). -/
def taEntry? (col : Str) (c : Row) : Option TAEntry :=
  let name := (c.get kCountry).orEmpty
  let code := norm_code (c.get kCode)
  if !name.isEmpty && !code.isEmpty then
    some { name := name, score := safe_float (c.get col), code := code }
  else Option.none

/-- The descending-by-score order of `ta_area_data` (app.py line 170). -/
def taGe (a b : TAEntry) : Prop := b.score ≤ a.score

instance : DecidableRel taGe :=
  fun a b => inferInstanceAs (Decidable (b.score ≤ a.score))

instance : IsTotal TAEntry taGe := ⟨fun a b => le_total b.score a.score⟩

instance : IsTrans TAEntry taGe := ⟨fun _ _ _ h1 h2 => le_trans h2 h1⟩

/-- One column of `ta_area_data` (app.py lines 156-170):
`sorted(all_scores, key=..., reverse=True)` is a stable descending sort. -/
def ta_ranking (profiles : List Row) (col : Str) : List TAEntry :=
  List.insertionSort taGe (profiles.filterMap (taEntry? col))

/-- One row of the country-list view. -/
structure CountryListEntry where
  country : Str
  code : Str
  overall : ℚ
  band : String
deriving DecidableEq

/-- The projection applied to every fetched row in `countries()` (app.py
lines 185-194): no row is skipped; the band comes from the `safe_float`
value (`score_band(overall)` on the float `overall` is `band_of overall`). -/
def countriesEntry (r : Row) : CountryListEntry :=
  let overall := safe_float (r.get kOverall)
  { country := (r.get kCountry).orEmpty
    code := norm_code (r.get kCode)
    overall := overall
    band := band_of overall }

/-- Python string comparison `s <= t` (code-point lexicographic). -/
def strLeB : Str → Str → Bool
  | [], _ => true
  | _ :: _, [] => false
  | a :: as, b :: bs => if a < b then true else if b < a then false else strLeB as bs

/-- The by-name order of the country-list sort
`countries_list.sort(key=lambda x: x.get("Country") or "")` (app.py
line 195); the key equals the already-projected `country` field. -/
def nameLe (a b : CountryListEntry) : Prop := strLeB a.country b.country = true

instance : DecidableRel nameLe :=
  fun a b => inferInstanceAs (Decidable (strLeB a.country b.country = true))

/-- `countries_list` (app.py lines 184-195): every fetched row projected,
then stably sorted by country name. -/
def countries_list (rows : List Row) : List CountryListEntry :=
  List.insertionSort nameLe (rows.map countriesEntry)

/-- The value `map_data` stores per code (app.py lines 198-203). -/
structure MapVal where
  name : Str
  band : String
  score : ℚ
  url : Str
deriving DecidableEq

def mapVal (c : CountryListEntry) : MapVal :=
  { name := c.country, band := c.band, score := c.overall,
    url := String.toList "/country/" ++ c.code }

/-- One step of the dict comprehension building `map_data`: skip the entry
when its code is falsy (empty), otherwise assign key `c.code`, overwriting
any earlier binding. -/
def mapStep (f : Str → Option MapVal) (c : CountryListEntry) : Str → Option MapVal :=
  if !c.code.isEmpty then
    fun k => if k = c.code then some (mapVal c) else f k
  else f

/-- `map_data` (app.py lines 197-205): the dict comprehension over the sorted
list, keyed by code, skipping falsy (empty) codes; a later row with the same
code overwrites the earlier entry.  The dict is modelled extensionally as its
lookup function — no view observes its key iteration order. -/
def map_data (rows : List Row) : Str → Option MapVal :=
  (countries_list rows).foldl mapStep (fun _ => Option.none)

/-- Python `a or b` on cells: `a` when truthy, else `b`. -/
def pyOr (a b : PyVal) : PyVal := if a.truthy then a else b

/-- One projected PEFA record of the detail view (app.py lines 229-240). -/
structure PefaEntry where
  assessments : Str
  latest_year : Str
  reform_plan : Str
  other_assessments : Str
  latest_pfm_activities : Str
  link : Str
deriving DecidableEq

def pefaProject (p : Row) : PefaEntry :=
  { assessments :=
      (pyOr (p.get (String.toList "PEFA_Assessments"))
        (p.get (String.toList "# PEFA Assessments"))).orEmpty
    latest_year := (p.get (String.toList "Latest PEFA Year")).orEmpty
    reform_plan := (p.get (String.toList "PFM Reform Plan")).orEmpty
    other_assessments :=
      (p.get (String.toList "Other PFM & Climate Finance Assessments")).orEmpty
    latest_pfm_activities :=
      (pyOr
        (p.get
          (String.toList "Latest PFM Activities (PFTAC Country Workplans FY 25/26)"))
        (p.get (String.toList "Latest PFM Activities"))).orEmpty
    link := (p.get (String.toList "PEFA Report/Portal Link")).orEmpty }

/-- One projected good-practice record of the detail view (app.py
lines 245-249). -/
structure PracticeEntry where
  area : Str
  description : Str
  replicability : Str
deriving DecidableEq

def practiceProject (g : Row) : PracticeEntry :=
  { area := (g.get (String.toList "Practice Area")).orEmpty
    description := (g.get (String.toList "Description")).orEmpty
    replicability := (g.get (String.toList "Replicability")).orEmpty }

/-- The satellite rows matched to a normalized code: the append-when-match
loops of app.py lines 226-228 and 242-244 are this filter. -/
def rows_matching (code : Str) (rows : List Row) : List Row :=
  rows.filter (fun p => extract_code p == code)

/-- The data of the country-detail view. -/
structure CountryDetail where
  country : Str
  code : Str
  overall : ℚ
  band : String
  dims : List (Str × ℚ)
  pefa : List PefaEntry
  practices : List PracticeEntry
deriving DecidableEq

/-- The `/country/<code>` route (app.py lines 208-257).  `next(..., None)` is
`find?` over the profiles; `if not country_row: abort(404)` tests Python
falsiness, which holds for `None` and also for an empty record, so an empty
first match aborts 404 (`none`) as well. -/
def country_route (codeArg : Str) (profiles pefa_rows practices_rows : List Row) :
    Option CountryDetail :=
  let code := norm_code (.str codeArg)
  match profiles.find? (fun c => norm_code (c.get kCode) == code) with
  | Option.none => Option.none
  | some row =>
    if row.isEmpty then Option.none
    else some
      { country := (row.get kCountry).orEmpty
        code := (row.get kCode).orEmpty
        overall := safe_float (row.get kOverall)
        band := score_band (row.get kOverall)
        dims := DIM_COLUMNS.map (fun dim => (dim, safe_float (row.get dim)))
        pefa := (rows_matching code pefa_rows).map pefaProject
        practices := (rows_matching code practices_rows).map practiceProject }

/-- The row filter implicit in `country_scores` and `ta_area_data`
(app.py lines 147 and 164): both name and code truthy. -/
def taKeep (c : Row) : Bool :=
  !((c.get kCountry).orEmpty).isEmpty && !(norm_code (c.get kCode)).isEmpty

/-- The total technical-area projection of a kept row. -/
def taEntryOf (col : Str) (c : Row) : TAEntry :=
  { name := (c.get kCountry).orEmpty
    score := safe_float (c.get col)
    code := norm_code (c.get kCode) }

/-- The single aggregation policy of the dimension averages, written once,
independently of the dimension: each raw parse result contributes its value,
an unparseable/absent cell contributing zero to numerator and denominator
alike, and negative values being dropped. -/
def countZeroPolicy (vals : List (Option ℚ)) : List ℚ :=
  (vals.map (fun o => o.getD 0)).filter (fun v => 0 ≤ v)

/-- Example country row with code "KE". -/
def keRow : Row :=
  [(kCode, PyVal.str (String.toList "KE")),
   (kCountry, PyVal.str (String.toList "Kenya"))]

def keProfiles : List Row := [keRow]

/-- Example assessment row whose only code-like column is `"Country  Code "`
with value `"  ke "`. -/
def kePefaRow : Row :=
  [(String.toList "Country  Code ", PyVal.str (String.toList "  ke "))]

/-- Example profile row with a code, a technical-area score, but no
country name. -/
def c3_row : Row :=
  [(kCode, PyVal.str (String.toList "KE")),
   (String.toList "Public Financial Management", PyVal.str (String.toList "5"))]

/-- Example profile row whose Overall Score cell is unparseable. -/
def c4_row : Row :=
  [(kCountry, PyVal.str (String.toList "Kenya")),
   (kCode, PyVal.str (String.toList "KE")),
   (kOverall, PyVal.str (String.toList "abc"))]

def c10_rowA : Row :=
  [(kCountry, PyVal.str (String.toList "Tonga")),
   (kCode, PyVal.str (String.toList "KE"))]

def c10_rowB : Row :=
  [(kCountry, PyVal.str (String.toList "Fiji")),
   (kCode, PyVal.str (String.toList "ke "))]

/-- Example fetch for the country-list view: two rows normalizing to the same
code "KE", and one empty row. -/
def c10_rows : List Row := [c10_rowA, c10_rowB, []]

/-- `TA_COLUMNS` from app.py. -/
def TA_COLUMNS : List Str :=
  [String.toList "Public Financial Management",
   String.toList "Revenue Administration",
   String.toList "Real Sector Statistics",
   String.toList "Debt Management",
   String.toList "Financial Sector Supervision",
   String.toList "Macroeconomic Frameworks",
   String.toList "Macroeconomic Programming and Analysis",
   String.toList "Government Finance Statistics",
   String.toList "Prices",
   String.toList "External Sector"]

/-! ## Theorems -/

theorem band_of_spec (s : ℚ) :
    (band_of s = "Very Strong" ↔ 85 ≤ s)
    ∧ (band_of s = "Strong" ↔ 70 ≤ s ∧ s < 85)
    ∧ (band_of s = "Moderate" ↔ 55 ≤ s ∧ s < 70)
    ∧ (band_of s = "Weak" ↔ s < 55) := by
  rcases le_or_lt 85 s with h85 | h85
  · have hb : band_of s = "Very Strong" := by
      simp [band_of, ge_iff_le, h85]
    rw [hb]
    refine ⟨iff_of_true rfl h85, iff_of_false (by decide) ?_,
      iff_of_false (by decide) ?_, iff_of_false (by decide) ?_⟩
    · rintro ⟨-, h⟩; linarith
    · rintro ⟨-, h⟩; linarith
    · intro h; linarith
  · rcases le_or_lt 70 s with h70 | h70
    · have hb : band_of s = "Strong" := by
        simp [band_of, ge_iff_le, h70, not_le.mpr h85]
      rw [hb]
      refine ⟨iff_of_false (by decide) ?_, iff_of_true rfl ⟨h70, h85⟩,
        iff_of_false (by decide) ?_, iff_of_false (by decide) ?_⟩
      · intro h; linarith
      · rintro ⟨-, h⟩; linarith
      · intro h; linarith
    · rcases le_or_lt 55 s with h55 | h55
      · have hb : band_of s = "Moderate" := by
          simp [band_of, ge_iff_le, h55, not_le.mpr h85, not_le.mpr h70]
        rw [hb]
        refine ⟨iff_of_false (by decide) ?_, iff_of_false (by decide) ?_,
          iff_of_true rfl ⟨h55, h70⟩, iff_of_false (by decide) ?_⟩
        · intro h; linarith
        · rintro ⟨h, -⟩; linarith
        · intro h; linarith
      · have hb : band_of s = "Weak" := by
          simp [band_of, ge_iff_le, not_le.mpr h85, not_le.mpr h70, not_le.mpr h55]
        rw [hb]
        refine ⟨iff_of_false (by decide) ?_, iff_of_false (by decide) ?_,
          iff_of_false (by decide) ?_, iff_of_true rfl h55⟩
        · intro h; linarith
        · rintro ⟨h, -⟩; linarith
        · rintro ⟨h, -⟩; linarith

/-- C1: `score_band` is total with exact, non-overlapping, closed-lower-bound
thresholds: any input failing to parse as a float yields "N/A"; a parsed score
`s` yields "Very Strong" iff `85 ≤ s`, "Strong" iff `70 ≤ s < 85`, "Moderate"
iff `55 ≤ s < 70`, and "Weak" iff `s < 55`; concretely, 85 → "Very Strong",
84.9 → "Strong", 70 → "Strong", 69.9 → "Moderate", 55 → "Moderate",
54.9 → "Weak". -/
theorem C1_score_band_thresholds :
    (∀ v : PyVal,
      parseFloat? (stripStr v.toStr) = Option.none → score_band v = "N/A")
    ∧ (∀ (v : PyVal) (s : ℚ), parseFloat? (stripStr v.toStr) = some s →
        (score_band v = "Very Strong" ↔ 85 ≤ s)
        ∧ (score_band v = "Strong" ↔ 70 ≤ s ∧ s < 85)
        ∧ (score_band v = "Moderate" ↔ 55 ≤ s ∧ s < 70)
        ∧ (score_band v = "Weak" ↔ s < 55))
    ∧ score_band (PyVal.str (String.toList "85")) = "Very Strong"
    ∧ score_band (PyVal.str (String.toList "84.9")) = "Strong"
    ∧ score_band (PyVal.str (String.toList "70")) = "Strong"
    ∧ score_band (PyVal.str (String.toList "69.9")) = "Moderate"
    ∧ score_band (PyVal.str (String.toList "55")) = "Moderate"
    ∧ score_band (PyVal.str (String.toList "54.9")) = "Weak" := by
  refine ⟨?_, ?_, by decide, by decide, by decide, by decide, by decide, by decide⟩
  · intro v h
    unfold score_band
    rw [h]
  · intro v s h
    unfold score_band
    rw [h]
    exact band_of_spec s

/-- Witness for C1 at concrete inputs. -/
theorem C1_score_band_thresholds_witness :
    score_band (PyVal.str (String.toList "84.95")) = "Strong"
    ∧ score_band (PyVal.str (String.toList "zz")) = "N/A" := by
  constructor
  · exact ((C1_score_band_thresholds.2.1 (PyVal.str (String.toList "84.95"))
      (mkRat 1699 20) (by decide)).2.1).mpr (by decide)
  · exact C1_score_band_thresholds.1 (PyVal.str (String.toList "zz")) (by decide)

/-- C6: `extract_code` returns the normalized value of the first key (in the
record's original key order) whose lowercase form contains the substring
"code", and the empty string when no key contains "code". -/
theorem C6_extract_code_first_code_key :
    (∀ row : Row, extract_code row =
      ((row.find? (fun kv => hasCodeKey kv.1)).map (fun kv => norm_code kv.2)).getD [])
    ∧ (∀ row : Row, (∀ kv ∈ row, ¬ hasCodeKey kv.1) → extract_code row = []) := by
  have main : ∀ row : Row, extract_code row =
      ((row.find? (fun kv => hasCodeKey kv.1)).map (fun kv => norm_code kv.2)).getD [] := by
    intro row
    induction row with
    | nil => rfl
    | cons kv rest ih =>
      rcases kv with ⟨k, v⟩
      by_cases h : hasCodeKey k
      · rw [List.find?_cons_of_pos _ (by simpa using h)]
        simp [extract_code, h]
      · rw [List.find?_cons_of_neg _ (by simpa using h)]
        simpa [extract_code, h] using ih
  refine ⟨main, fun row hnone => ?_⟩
  rw [main row, List.find?_eq_none.mpr (fun kv hkv => by simpa using hnone kv hkv)]
  rfl

/-- Witness for C6 at concrete records. -/
theorem C6_extract_code_first_code_key_witness :
    extract_code [(String.toList "Name", PyVal.str (String.toList "x"))] = []
    ∧ extract_code kePefaRow = String.toList "KE" := by
  constructor
  · exact C6_extract_code_first_code_key.2 _ (by decide)
  · exact (C6_extract_code_first_code_key.1 kePefaRow).trans (by decide)

theorem upChar_fixed :
    ∀ pr ∈ asciiCasePairs, asciiCasePairs.find? (fun p => p.1 == pr.2) = Option.none := by
  decide

theorem upChar_pairs_not_ws :
    ∀ pr ∈ asciiCasePairs, isWs pr.1 = false ∧ isWs pr.2 = false := by
  decide

theorem upChar_pairs_ne_nbsp : ∀ pr ∈ asciiCasePairs, pr.2 ≠ nbspChar := by
  decide

theorem upChar_upChar (c : Char) : upChar (upChar c) = upChar c := by
  cases hf : asciiCasePairs.find? (fun p => p.1 == c) with
  | none => simp [upChar, hf]
  | some pr =>
    have hmem : pr ∈ asciiCasePairs := List.mem_of_find?_eq_some hf
    have hc : upChar c = pr.2 := by simp [upChar, hf]
    rw [hc]
    simp [upChar, upChar_fixed pr hmem]

theorem isWs_upChar (c : Char) : isWs (upChar c) = isWs c := by
  cases hf : asciiCasePairs.find? (fun p => p.1 == c) with
  | none => simp [upChar, hf]
  | some pr =>
    have hmem : pr ∈ asciiCasePairs := List.mem_of_find?_eq_some hf
    have heq : pr.1 = c := by simpa using List.find?_some hf
    have hc : upChar c = pr.2 := by simp [upChar, hf]
    rw [hc, ← heq, (upChar_pairs_not_ws pr hmem).1, (upChar_pairs_not_ws pr hmem).2]

theorem upChar_ne_nbsp {c : Char} (h : c ≠ nbspChar) : upChar c ≠ nbspChar := by
  cases hf : asciiCasePairs.find? (fun p => p.1 == c) with
  | none => simpa [upChar, hf] using h
  | some pr =>
    have hmem : pr ∈ asciiCasePairs := List.mem_of_find?_eq_some hf
    have hc : upChar c = pr.2 := by simp [upChar, hf]
    rw [hc]
    exact upChar_pairs_ne_nbsp pr hmem

theorem dropWhile_map_ws (f : Char → Char) (h : ∀ c, isWs (f c) = isWs c) :
    ∀ l : Str, (l.map f).dropWhile isWs = (l.dropWhile isWs).map f
  | [] => rfl
  | c :: l => by
    by_cases hw : isWs c = true
    · simp [List.dropWhile_cons, h c, hw, dropWhile_map_ws f h l]
    · simp [List.dropWhile_cons, h c, hw]

theorem stripStr_as_rdropWhile (s : Str) :
    stripStr s = List.rdropWhile isWs (List.dropWhile isWs s) := rfl

theorem stripStr_map (f : Char → Char) (h : ∀ c, isWs (f c) = isWs c) (s : Str) :
    stripStr (s.map f) = (stripStr s).map f := by
  unfold stripStr
  rw [dropWhile_map_ws f h s, ← List.map_reverse, dropWhile_map_ws f h, List.map_reverse]

theorem stripStr_upperStr (s : Str) : stripStr (upperStr s) = upperStr (stripStr s) :=
  stripStr_map upChar isWs_upChar s

theorem stripStr_idem (s : Str) : stripStr (stripStr s) = stripStr s := by
  rw [stripStr_as_rdropWhile, stripStr_as_rdropWhile]
  have h1 : List.dropWhile isWs (List.rdropWhile isWs (List.dropWhile isWs s)) =
      List.rdropWhile isWs (List.dropWhile isWs s) := by
    rw [List.dropWhile_eq_self_iff]
    intro hl
    have hpre := List.rdropWhile_prefix isWs (List.dropWhile isWs s)
    have hlen : 0 < (List.dropWhile isWs s).length :=
      Nat.lt_of_lt_of_le hl hpre.length_le
    have hnot := List.dropWhile_get_zero_not isWs s hlen
    have hget : (List.rdropWhile isWs (List.dropWhile isWs s)).get ⟨0, hl⟩ =
        (List.dropWhile isWs s).get ⟨0, hlen⟩ := by
      simpa using hpre.getElem hl
    rw [hget]
    exact hnot
  rw [h1, List.rdropWhile_idempotent]

theorem mem_stripStr {c : Char} {s : Str} (h : c ∈ stripStr s) : c ∈ s := by
  rw [stripStr_as_rdropWhile] at h
  exact (List.dropWhile_suffix isWs).mem ((List.rdropWhile_prefix isWs _).mem h)

theorem removeNbsp_eq_self {s : Str} (h : ∀ c ∈ s, c ≠ nbspChar) :
    removeNbsp s = s :=
  List.filter_eq_self.mpr (fun a ha => by simpa using h a ha)

theorem mem_removeNbsp {c : Char} {s : Str} (h : c ∈ removeNbsp s) :
    c ∈ s ∧ c ≠ nbspChar := by
  have := List.mem_filter.mp h
  exact ⟨this.1, by simpa using this.2⟩

/-- C7: `norm_code` is idempotent, for every input (including `None` and the
empty string): normalizing an already-normalized code returns it unchanged. -/
theorem C7_norm_code_idempotent (v : PyVal) :
    norm_code (PyVal.str (norm_code v)) = norm_code v := by
  unfold norm_code
  have h1 : removeNbsp (PyVal.orEmpty (PyVal.str
      (upperStr (stripStr (removeNbsp v.orEmpty))))) =
      upperStr (stripStr (removeNbsp v.orEmpty)) := by
    apply removeNbsp_eq_self
    intro c hc
    obtain ⟨d, hd, rfl⟩ := List.mem_map.mp hc
    exact upChar_ne_nbsp (mem_removeNbsp (mem_stripStr hd)).2
  rw [h1, stripStr_upperStr, stripStr_idem]
  unfold upperStr
  rw [List.map_map]
  exact List.map_congr_left (fun c _ => upChar_upChar c)

section StableSort

variable {α : Type} (r : α → α → Prop) [DecidableRel r] (p : α → Bool)

theorem filter_orderedInsert_pos (a : α) (ha : p a = true)
    (hr : ∀ b, p b = true → r a b) (l : List α) :
    (List.orderedInsert r a l).filter p = a :: l.filter p := by
  induction l with
  | nil => simp [List.orderedInsert, ha]
  | cons b l ih =>
    by_cases hab : r a b
    · simp [List.orderedInsert, hab, List.filter_cons, ha]
    · have hpb : p b = false := by
        cases hpb : p b
        · rfl
        · exact absurd (hr b hpb) hab
      simp [List.orderedInsert, hab, List.filter_cons, hpb, ih]

theorem filter_orderedInsert_neg (a : α) (ha : p a = false) (l : List α) :
    (List.orderedInsert r a l).filter p = l.filter p := by
  induction l with
  | nil => simp [List.orderedInsert, ha]
  | cons b l ih =>
    by_cases hab : r a b
    · simp [List.orderedInsert, hab, List.filter_cons, ha]
    · simp [List.orderedInsert, hab, List.filter_cons, ih]

theorem filter_insertionSort (h : ∀ a b, p a = true → p b = true → r a b)
    (l : List α) :
    (List.insertionSort r l).filter p = l.filter p := by
  induction l with
  | nil => rfl
  | cons a l ih =>
    cases hpa : p a
    · simp [List.insertionSort, filter_orderedInsert_neg r p a hpa, ih,
        List.filter_cons, hpa]
    · simp [List.insertionSort,
        filter_orderedInsert_pos r p a hpa (fun b hb => h a b hpa hb), ih,
        List.filter_cons, hpa]

end StableSort

/-- C8: the overview's country ranking is sorted by score descending —
a later entry never has a larger score — and stably: it is a permutation of
the source-order entries in which the entries of any fixed score keep their
source order. -/
theorem C8_country_ranking_stable_desc (profiles : List Row) :
    (country_scores profiles).Pairwise (fun a b => b.score ≤ a.score)
    ∧ List.Perm (country_scores profiles) (country_scores_raw profiles)
    ∧ ∀ s : ℚ, (country_scores profiles).filter (fun e => e.score == s)
        = (country_scores_raw profiles).filter (fun e => e.score == s) := by
  refine ⟨?_, List.perm_insertionSort scoreGe _, ?_⟩
  · exact List.sorted_insertionSort scoreGe _
  · intro s
    refine filter_insertionSort scoreGe (fun e => e.score == s) ?_ _
    intro a b ha hb
    have ha' : a.score = s := by simpa using ha
    have hb' : b.score = s := by simpa using hb
    show b.score ≤ a.score
    rw [ha', hb']

theorem filterMap_taEntry (col : Str) (profiles : List Row) :
    profiles.filterMap (taEntry? col) = (profiles.filter taKeep).map (taEntryOf col) := by
  induction profiles with
  | nil => rfl
  | cons c l ih =>
    cases hk : taKeep c
    · have hnone : taEntry? col c = Option.none := by
        unfold taKeep at hk
        simp [taEntry?, hk]
      simp [List.filterMap_cons, List.filter_cons, hk, hnone, ih]
    · have hsome : taEntry? col c = some (taEntryOf col c) := by
        unfold taKeep at hk
        simp [taEntry?, taEntryOf, hk]
      simp [List.filterMap_cons, List.filter_cons, hk, hsome, ih]

/-- C3 counterexample: a fetched country row carrying a technical-area score
but no country name is dropped from the ranking of that technical area — the
ranking for one row is empty, so not every country row yields a pair. -/
theorem C3_ta_ranking_counterexample :
    String.toList "Public Financial Management" ∈ TA_COLUMNS
    ∧ ([c3_row] : List Row).length = 1
    ∧ ta_ranking [c3_row] (String.toList "Public Financial Management") = [] := by
  decide

/-- C3 as amended: each technical-area ranking contains one
(country name, score) pair per country row *whose name and normalized code
are non-empty* — zero-valued entries included, since the kept rows are
selected without regard to the score — and is sorted by score descending. -/
theorem C3_ta_ranking_amended (profiles : List Row) (col : Str) :
    (ta_ranking profiles col).Pairwise (fun a b => b.score ≤ a.score)
    ∧ List.Perm (ta_ranking profiles col) ((profiles.filter taKeep).map (taEntryOf col)) := by
  constructor
  · exact List.sorted_insertionSort taGe _
  · show List.Perm (List.insertionSort taGe (profiles.filterMap (taEntry? col)))
      ((profiles.filter taKeep).map (taEntryOf col))
    rw [filterMap_taEntry col profiles]
    exact List.perm_insertionSort taGe _

/-- C4 counterexample: a row whose Overall Score cell is unparseable ("abc")
is displayed with Score Band "Weak", not "N/A", in both the country-list view
and the overview's country ranking, because both band the `safe_float`
fallback 0.0 instead of the raw cell. -/
theorem C4_band_na_counterexample :
    parseFloat? (stripStr (c4_row.get kOverall).toStr) = Option.none
    ∧ (countries_list [c4_row]).map (fun e => e.band) = ["Weak"]
    ∧ (country_scores [c4_row]).map (fun e => e.band) = ["Weak"] := by
  decide

/-- C4 as amended: for a row whose Overall Score is unparseable, the
overview's band histogram (which bands the raw cell) does attach "N/A" — and
counts the row under "N/A" — but the country-list view and the overview's
country ranking attach "Weak", the band of the 0.0 fallback. -/
theorem C4_band_na_amended (r : Row)
    (h : parseFloat? (stripStr (r.get kOverall).toStr) = Option.none) :
    score_band (r.get kOverall) = "N/A"
    ∧ (countriesEntry r).band = "Weak"
    ∧ (∀ e, countryScore? r = some e → e.band = "Weak")
    ∧ ∀ profiles, r ∈ profiles → 0 < band_counts profiles "N/A" := by
  have hsf : safe_float (r.get kOverall) = 0 := by simp [safe_float, h]
  have hb0 : band_of 0 = "Weak" := by decide
  have hna : score_band (r.get kOverall) = "N/A" := by
    unfold score_band
    rw [h]
  refine ⟨hna, ?_, ?_, ?_⟩
  · simp [countriesEntry, hsf, hb0]
  · intro e he
    simp only [countryScore?] at he
    by_cases hc : (!((r.get kCountry).orEmpty).isEmpty
        && !(norm_code (r.get kCode)).isEmpty) = true
    · rw [if_pos hc] at he
      have := Option.some.inj he
      rw [← this, hsf, hb0]
    · rw [if_neg hc] at he
      exact absurd he (by simp)
  · intro profiles hmem
    have hin : r ∈ profiles.filter (fun c => score_band (c.get kOverall) == "N/A") :=
      List.mem_filter.mpr ⟨hmem, by simp [hna]⟩
    unfold band_counts
    exact List.length_pos.mpr (List.ne_nil_of_mem hin)

/-- Witness for the amended C4 at the concrete unparseable row. -/
theorem C4_band_na_amended_witness :
    score_band (c4_row.get kOverall) = "N/A"
    ∧ (countriesEntry c4_row).band = "Weak" := by
  have h := C4_band_na_amended c4_row (by decide)
  exact ⟨h.1, h.2.1⟩

/-- C2 counterexample: with an empty country-profiles table the first
dimension column has zero contributing values, yet the computed average is
the number 0, where the spec's exclude policy (modelled by
`dimension_avg_spec`) demands the null marker `none`. -/
theorem C2_dimension_avg_counterexample :
    dim_contribs [] (String.toList "Dim 1: PFM Assessments") = []
    ∧ dimension_avg [] (String.toList "Dim 1: PFM Assessments") = 0
    ∧ dimension_avg_spec [] (String.toList "Dim 1: PFM Assessments") = Option.none := by
  decide

/-- C2 as amended: a dimension with zero contributing values yields the
number 0 (not a null marker); and a single policy, written once and
independently of the dimension column, is applied to every dimension
average: an unparseable or absent cell counts as zero in numerator and
denominator alike (a negative parsed value being excluded). -/
theorem C2_dimension_avg_amended (profiles : List Row) (dim : Str) :
    (dim_contribs profiles dim = [] → dimension_avg profiles dim = 0)
    ∧ dim_contribs profiles dim
        = countZeroPolicy (profiles.map (fun r => parseFloat? (stripStr (r.get dim).toStr)))
    ∧ (∀ r : Row, parseFloat? (stripStr (r.get dim).toStr) = Option.none →
        safe_float (r.get dim) = 0) := by
  refine ⟨?_, ?_, ?_⟩
  · intro h
    simp [dimension_avg, h]
  · unfold dim_contribs countZeroPolicy safe_float
    rw [List.map_map]
    rfl
  · intro r h
    simp [safe_float, h]

/-- Witness for the amended C2 at a concrete empty table. -/
theorem C2_dimension_avg_amended_witness :
    dimension_avg [] (String.toList "Dim 2: Climate Risk") = 0 :=
  (C2_dimension_avg_amended [] (String.toList "Dim 2: Climate Risk")).1 (by decide)

/-- C9 counterexample: an empty record is falsy in Python, so a request whose
normalized code ("" here, from the blank path segment " ") *does* match the
empty country row still aborts 404 instead of returning that row's profile. -/
theorem C9_not_found_counterexample :
    (∃ c ∈ ([[]] : List Row),
      norm_code (c.get kCode) = norm_code (PyVal.str (String.toList " ")))
    ∧ country_route (String.toList " ") [[]] [] [] = Option.none := by
  decide

/-- C9 as amended: a requested code whose normalized form matches no row's
normalized Code yields NotFound (`none`), never a crash or an empty-default
profile; a code whose first matching row is non-empty yields that row's
profile; a matching *empty* record, being falsy, also yields NotFound. -/
theorem C9_not_found_amended (codeArg : Str) (profiles pefa practices : List Row) :
    ((∀ c ∈ profiles, norm_code (c.get kCode) ≠ norm_code (PyVal.str codeArg)) →
      country_route codeArg profiles pefa practices = Option.none)
    ∧ (∀ row, profiles.find?
          (fun c => norm_code (c.get kCode) == norm_code (PyVal.str codeArg)) = some row →
        row ≠ [] →
        ∃ d, country_route codeArg profiles pefa practices = some d
          ∧ d.country = (row.get kCountry).orEmpty
          ∧ d.overall = safe_float (row.get kOverall)
          ∧ d.band = score_band (row.get kOverall)) := by
  constructor
  · intro hnone
    have hf : profiles.find?
        (fun c => norm_code (c.get kCode) == norm_code (PyVal.str codeArg)) = Option.none := by
      rw [List.find?_eq_none]
      intro c hc
      simpa using hnone c hc
    simp [country_route, hf]
  · intro row hf hne
    have hrow : row.isEmpty = false := by simpa [List.isEmpty_iff] using hne
    simp only [country_route, hf, hrow]
    exact ⟨_, rfl, rfl, rfl, rfl⟩

/-- Witness for the amended C9: an unmatched code 404s, a matched one does
not. -/
theorem C9_not_found_amended_witness :
    country_route (String.toList "ZZ") keProfiles [] [] = Option.none
    ∧ ∃ d, country_route (String.toList "KE") keProfiles [] [] = some d := by
  constructor
  · exact (C9_not_found_amended (String.toList "ZZ") keProfiles [] []).1 (by decide)
  · obtain ⟨d, hd, -, -, -⟩ :=
      (C9_not_found_amended (String.toList "KE") keProfiles [] []).2 keRow
        (by decide) (by decide)
    exact ⟨d, hd⟩

/-- C5: a PEFA or good-practice row is matched to a requested country iff its
extracted code equals the request's normalized code (the detail view's lists
being the projections of exactly the matched rows); concretely, the row whose
only code-like column is "Country  Code " with value "  ke " appears in the
detail view of the country with Code "KE"; and a row whose extracted code
equals no country row's normalized Code is matched in no country's detail
view. -/
theorem C5_join_correctness :
    (∀ (code : Str) (rows : List Row) (p : Row),
      p ∈ rows_matching code rows ↔ p ∈ rows ∧ extract_code p = code)
    ∧ (∀ (codeArg : Str) (profiles pefa practices : List Row) (d : CountryDetail),
        country_route codeArg profiles pefa practices = some d →
        d.pefa = (rows_matching (norm_code (PyVal.str codeArg)) pefa).map pefaProject
        ∧ d.practices
          = (rows_matching (norm_code (PyVal.str codeArg)) practices).map practiceProject)
    ∧ ((country_route (String.toList "KE") keProfiles [kePefaRow] []).map
        (fun d => d.pefa) = some [pefaProject kePefaRow])
    ∧ (∀ (codeArg : Str) (profiles pefa practices : List Row) (d : CountryDetail) (p : Row),
        country_route codeArg profiles pefa practices = some d →
        (∀ c ∈ profiles, norm_code (c.get kCode) ≠ extract_code p) →
        p ∉ rows_matching (norm_code (PyVal.str codeArg)) pefa) := by
  refine ⟨?_, ?_, by decide, ?_⟩
  · intro code rows p
    simp [rows_matching, List.mem_filter]
  · intro codeArg profiles pefa practices d h
    simp only [country_route] at h
    split at h
    · exact absurd h (by simp)
    · rename_i row hf
      by_cases hrow : row.isEmpty = true
      · rw [if_pos hrow] at h
        exact absurd h (by simp)
      · rw [if_neg hrow] at h
        obtain rfl := Option.some.inj h
        exact ⟨rfl, rfl⟩
  · intro codeArg profiles pefa practices d p hroute hnone hmem
    simp only [country_route] at hroute
    split at hroute
    · exact absurd hroute (by simp)
    · rename_i row hf
      have hrow_mem : row ∈ profiles := List.mem_of_find?_eq_some hf
      have hrow_eq : norm_code (row.get kCode) = norm_code (PyVal.str codeArg) := by
        simpa using List.find?_some hf
      have hp : extract_code p = norm_code (PyVal.str codeArg) :=
        by simpa using (List.mem_filter.mp hmem).2
      exact hnone row hrow_mem (hrow_eq.trans hp.symm)

/-- Witness for C5: the "  ke " assessment row is matched to code "KE". -/
theorem C5_join_correctness_witness :
    kePefaRow ∈ rows_matching (String.toList "KE") [kePefaRow] :=
  (C5_join_correctness.1 (String.toList "KE") [kePefaRow] kePefaRow).mpr
    ⟨by decide, by decide⟩

theorem strLeB_total : ∀ s t : Str, strLeB s t = true ∨ strLeB t s = true
  | [], _ => Or.inl rfl
  | _ :: _, [] => Or.inr rfl
  | a :: as, b :: bs => by
    rcases lt_trichotomy a b with h | h | h
    · left
      simp [strLeB, h]
    · subst h
      rcases strLeB_total as bs with ih | ih
      · left
        simp [strLeB, lt_irrefl, ih]
      · right
        simp [strLeB, lt_irrefl, ih]
    · right
      simp [strLeB, h]

theorem strLeB_trans :
    ∀ s t u : Str, strLeB s t = true → strLeB t u = true → strLeB s u = true
  | [], _, _ => fun _ _ => rfl
  | _ :: _, [], _ => fun h1 _ => by simp [strLeB] at h1
  | _ :: _, _ :: _, [] => fun _ h2 => by simp [strLeB] at h2
  | a :: as, b :: bs, c :: cs => fun h1 h2 => by
    simp only [strLeB] at h1 h2 ⊢
    by_cases hab : a < b
    · by_cases hbc : b < c
      · simp [lt_trans hab hbc]
      · by_cases hcb : c < b
        · rw [if_neg hbc, if_pos hcb] at h2
          exact absurd h2 (by simp)
        · have hbceq : b = c := le_antisymm (not_lt.mp hcb) (not_lt.mp hbc)
          subst hbceq
          simp [hab]
    · by_cases hba : b < a
      · rw [if_neg hab, if_pos hba] at h1
        exact absurd h1 (by simp)
      · have habeq : a = b := le_antisymm (not_lt.mp hba) (not_lt.mp hab)
        subst habeq
        rw [if_neg (lt_irrefl a), if_neg (lt_irrefl a)] at h1
        by_cases hac : a < c
        · simp [hac]
        · by_cases hca : c < a
          · rw [if_neg hac, if_pos hca] at h2
            exact absurd h2 (by simp)
          · rw [if_neg hac, if_neg hca] at h2 ⊢
            exact strLeB_trans as bs cs h1 h2

instance : IsTotal CountryListEntry nameLe :=
  ⟨fun a b => strLeB_total a.country b.country⟩

instance : IsTrans CountryListEntry nameLe :=
  ⟨fun a b c h1 h2 => strLeB_trans a.country b.country c.country h1 h2⟩

theorem map_data_fold_lookup (k : Str) (hk : k ≠ []) :
    ∀ (l : List CountryListEntry) (f : Str → Option MapVal),
      (List.foldl mapStep f l) k
        = match (l.filter (fun c => c.code == k)).getLast? with
          | some c => some (mapVal c)
          | Option.none => f k
  | [], f => rfl
  | c :: l, f => by
    rw [List.foldl_cons, map_data_fold_lookup k hk l (mapStep f c)]
    by_cases hc : (c.code == k) = true
    · have hck : c.code = k := by simpa using hc
      have hcne : c.code.isEmpty = false := by
        rw [hck]
        cases k with
        | nil => exact absurd rfl hk
        | cons x t => rfl
      have hstep : mapStep f c k = some (mapVal c) := by
        unfold mapStep
        rw [if_pos (by rw [hcne]; rfl)]
        simp [hck]
      rw [List.filter_cons]
      rw [if_pos hc]
      cases hfl : l.filter (fun x => x.code == k) with
      | nil => simp [hfl, hstep]
      | cons e t =>
        rw [List.getLast?_cons_cons]
        cases hgl : (e :: t).getLast? with
        | none => exact absurd (List.getLast?_eq_none_iff.mp hgl) (by simp)
        | some d => simp [hgl]
    · have hstep : mapStep f c k = f k := by
        unfold mapStep
        by_cases hce : c.code.isEmpty = true
        · rw [if_neg (by rw [hce]; simp)]
        · have hce' : c.code.isEmpty = false := by
            cases h : c.code.isEmpty
            · rfl
            · exact absurd h hce
          rw [if_pos (by rw [hce']; rfl)]
          have hne : ¬ k = c.code := fun h => hc (by simp [h])
          simp [hne]
      rw [List.filter_cons, if_neg (by simpa using hc)]
      cases hfl : (l.filter (fun x => x.code == k)).getLast? <;> simp [hfl, hstep]

/-- C10: every fetched row yields an entry in the name-sorted country list
(rows with empty Code or Name included); the code-to-summary map holds an
entry exactly for the non-empty normalized codes, and for each such code the
value comes from the entry appearing last in the sorted list among those with
that code. -/
theorem C10_countries_list_map (rows : List Row) :
    List.Perm (countries_list rows) (rows.map countriesEntry)
    ∧ (countries_list rows).Pairwise (fun a b => strLeB a.country b.country = true)
    ∧ map_data rows [] = Option.none
    ∧ ∀ k : Str, k ≠ [] →
        map_data rows k
          = ((countries_list rows).filter (fun c => c.code == k)).getLast?.map mapVal := by
  refine ⟨List.perm_insertionSort nameLe _, List.sorted_insertionSort nameLe _, ?_, ?_⟩
  · unfold map_data
    suffices h : ∀ (l : List CountryListEntry) (f : Str → Option MapVal),
        f [] = Option.none → (List.foldl mapStep f l) [] = Option.none from
      h _ _ rfl
    intro l
    induction l with
    | nil => exact fun f hf => hf
    | cons c l ih =>
      intro f hf
      rw [List.foldl_cons]
      apply ih
      unfold mapStep
      by_cases hce : c.code.isEmpty = true
      · rw [if_neg (by rw [hce]; simp)]
        exact hf
      · rw [if_pos (by simp [hce])]
        have : c.code ≠ [] := by simpa [List.isEmpty_iff] using hce
        simp [Ne.symm this, hf]
  · intro k hk
    unfold map_data
    rw [map_data_fold_lookup k hk (countries_list rows) (fun _ => Option.none)]
    cases hfl : (countries_list rows).filter (fun c => c.code == k) |>.getLast? <;>
      simp [hfl]

/-- Witness for C10: with two rows normalizing to code "KE" and one empty row,
the map holds the entry of the row appearing last in the sorted list. -/
theorem C10_countries_list_map_witness :
    map_data c10_rows (String.toList "KE") = some (mapVal (countriesEntry c10_rowA)) := by
  have h := (C10_countries_list_map c10_rows).2.2.2 (String.toList "KE") (by decide)
  rw [h]
  decide
